import Mathlib

/-!
Shallow embedding of the boomer load-generation engine (src/boomer.go and the
report/statistics file) together with theorems checking the specification
claims against it.

Modelling conventions:
- Go float64 values (latency seconds, summary statistics) are modelled as
  exact rationals; a time.Duration is an Int of nanoseconds and
  Duration.Seconds() is division by 1e9 over the rationals.
- Go maps (statusCodeDist, errorDist) are unordered with semantic equality;
  they are represented canonically as key-sorted association lists, so that
  structural equality of the representation coincides with Go map equality.
  A key is present in the Go map iff it appears in the association list.
- Pointer-typed state (http.Header maps, the []string header value slices,
  body readers, and the *url.URL of a request) is modelled by an explicit
  heap: a store of cells addressed by natural-number pointers.  Allocation
  appends a cell; in-place mutation overwrites a cell.
- The aggregator drains a list of outcome records in arrival order; the
  result channel of Run is buffered with capacity N so worker sends never
  block, and the drain loop (select with a default case) consumes exactly
  the records that are buffered when it runs.
-/

namespace Boomer

/-- A time.Duration value: an integer number of nanoseconds. -/
abbrev Duration := Int

/-- Duration.Seconds() from the Go standard library: the duration divided by
1e9, modelled exactly over the rationals. -/
def seconds (d : Duration) : ℚ := (d : ℚ) / 1000000000

/-- The result struct of src/boomer.go: one outcome record per dispatched
job.  The error is modelled by its message string (err.Error()). -/
structure result where
  err : Option String
  statusCode : Int
  duration : Duration
  contentLength : Int
deriving DecidableEq

/-- The ResponseTime struct: one histogram row of the final report. -/
structure ResponseTime where
  Second : ℚ
  Count : Nat
  BarLen : Nat
deriving DecidableEq

/-- The anonymous Summary struct nested in ReportResult. -/
structure ReportSummary where
  TotalSecond : ℚ
  SlowestSecond : ℚ
  FastestSecond : ℚ
  AverageSecond : ℚ
  RequestsPerSec : ℚ
  TotalSize : Int
  SizePerRequest : Int
deriving DecidableEq

/-- The ReportResult struct returned by Run.  In Go the three maps and the
ResponseTimes slice are nil unless the corresponding print helper assigns
them; nil versus assigned is modelled by the Option wrapper. -/
structure ReportResult where
  Summary : ReportSummary
  StatusCodeDist : Option (List (Int × Nat))
  ResponseTimes : Option (List ResponseTime)
  LatencyDist : Option (List (Nat × ℚ))
  ErrorDist : Option (List (String × Nat))
deriving DecidableEq

/-- The all-zero Summary: the zero value a fresh Go ReportResult starts
with, left untouched when there are no successful requests. -/
def zeroSummary : ReportSummary :=
  { TotalSecond := 0
    SlowestSecond := 0
    FastestSecond := 0
    AverageSecond := 0
    RequestsPerSec := 0
    TotalSize := 0
    SizePerRequest := 0 }

/-- Increment the count of key k in a Go map of counters (m[k]++, counting
from the zero value when k is absent).  The map is kept as a key-sorted
association list so that equal Go maps have equal representations. -/
def mapInc {κ : Type} [LinearOrder κ] (m : List (κ × Nat)) (k : κ) : List (κ × Nat) :=
  match m with
  | [] => [(k, 1)]
  | (k1, c) :: rest =>
    if k = k1 then (k1, c + 1) :: rest
    else if k < k1 then (k, 1) :: (k1, c) :: rest
    else (k1, c) :: mapInc rest k

/-- Sum of the counter values of a Go map of counters. -/
def mapValuesSum {κ : Type} (m : List (κ × Nat)) : Nat :=
  (m.map Prod.snd).sum

/-- The report struct fields that the drain loop of finalize accumulates.
The fields fastest, slowest, rps and average of the Go struct are computed
from these just before printing and are passed along explicitly. -/
structure report where
  avgTotal : ℚ
  lats : List ℚ
  sizeTotal : Int
  statusCodeDist : List (Int × Nat)
  errorDist : List (String × Nat)

/-- The report state newReport builds: empty distributions, no latencies. -/
def emptyReport : report :=
  { avgTotal := 0, lats := [], sizeTotal := 0, statusCodeDist := [], errorDist := [] }

/-- The body of the receiving select case of finalize: fold one outcome
record into the report state.  A record with a non-nil error is counted in
errorDist; otherwise its latency, status code and (positive) content length
are accumulated. -/
def collectResult (st : report) (res : result) : report :=
  match res.err with
  | some e => { st with errorDist := mapInc st.errorDist e }
  | none =>
    { st with
      lats := st.lats ++ [seconds res.duration]
      avgTotal := st.avgTotal + seconds res.duration
      statusCodeDist := mapInc st.statusCodeDist res.statusCode
      sizeTotal :=
        if 0 < res.contentLength then st.sizeTotal + res.contentLength else st.sizeTotal }

/-- The drain loop of finalize applied to the records buffered in the result
channel, in arrival order. -/
def collect (results : List result) : report :=
  results.foldl collectResult emptyReport

/-- The fixed target percentiles of printLatencies. -/
def pctls : List Nat := [10, 25, 50, 75, 90, 95, 99]

/-- The scanning loop of printLatencies: walk the (sorted) latency list once
with index i and a monotonically advancing percentile index j; the sample at
index i is assigned to percentile j when its rank i*100/len has reached
pctls[j].  Returns the data array together with the final value of j. -/
def latLoop (lats : List ℚ) (data : List ℚ) (i j : Nat) : List ℚ × Nat :=
  if h : i < lats.length ∧ j < pctls.length then
    if pctls.getD j 0 ≤ i * 100 / lats.length then
      latLoop lats (data.set j (lats.getD i 0)) (i + 1) (j + 1)
    else
      latLoop lats data (i + 1) j
  else
    (data, j)
termination_by lats.length - i
decreasing_by
  all_goals omega

/-- printLatencies: run the percentile walk over the sorted latencies and
keep, in pctls order, the percentiles whose assigned latency is positive
(data[i] > 0); the rest are omitted from the map. -/
def printLatencies (lats : List ℚ) : List (Nat × ℚ) :=
  let data := (latLoop lats (List.replicate pctls.length 0) 0 0).1
  (pctls.zip data).filter fun p => 0 < p.2

/-- The bucket boundaries of printHistogram: bc = 10 equal-width buckets
spanning fastest..slowest, and the top edge itself (assigned exactly, not
computed) as the final boundary. -/
def histBuckets (fastest slowest : ℚ) : List ℚ :=
  ((List.range 10).map fun i : Nat => fastest + (slowest - fastest) / 10 * (i : ℚ)) ++ [slowest]

/-- The bucket-filling loop of printHistogram.  At each step either the
current latency fits the current boundary (count it, advance i) or the
bucket pointer bi advances; when neither branch applies the Go loop spins
forever, which the fuel models: none means the loop does not terminate.
Returns the bucket counts and the maximum count. -/
def histLoop (lats buckets : List ℚ) (counts : List Nat) (i bi mx : Nat) :
    Nat → Option (List Nat × Nat)
  | 0 => none
  | fuel + 1 =>
    if i < lats.length then
      if lats.getD i 0 ≤ buckets.getD bi 0 then
        let c := counts.getD bi 0 + 1
        histLoop lats buckets (counts.set bi c) (i + 1) bi (Nat.max mx c) fuel
      else if bi < buckets.length - 1 then
        histLoop lats buckets counts i (bi + 1) mx fuel
      else
        histLoop lats buckets counts i bi mx fuel
    else
      some (counts, mx)

/-- Assemble the ResponseTimes rows: each bucket boundary with its count and
the bar length normalized to 40 units relative to the maximum count; when
the maximum count is zero every bar length is zero. -/
def mkResponseTimes (buckets : List ℚ) (counts : List Nat) (mx : Nat) : List ResponseTime :=
  (List.range buckets.length).map fun i =>
    { Second := buckets.getD i 0
      Count := counts.getD i 0
      BarLen := if 0 < mx then counts.getD i 0 * 40 / mx else 0 }

/-- printHistogram on the sorted latencies with the observed fastest and
slowest values.  The fuel given to the loop covers one step per latency plus
one step per bucket advance; it runs out only if the Go loop spins. -/
def printHistogram (lats : List ℚ) (fastest slowest : ℚ) : Option (List ResponseTime) :=
  let buckets := histBuckets fastest slowest
  match histLoop lats buckets (List.replicate 11 0) 0 0 0 (lats.length + buckets.length + 1) with
  | none => none
  | some (counts, mx) => some (mkResponseTimes buckets counts mx)

/-- The print method of report: sort the latencies; when at least one
success exists fill the summary, status code distribution, histogram and
latency percentiles; the error distribution is attached iff the errorDist
map is non-empty.  A none result models the histogram loop spinning
forever. -/
def print (rep : report) (total : Duration) (rps average : ℚ) : Option ReportResult :=
  let lats := rep.lats.insertionSort (· ≤ ·)
  if 0 < lats.length then
    let fastest := lats.getD 0 0
    let slowest := lats.getD (lats.length - 1) 0
    match printHistogram lats fastest slowest with
    | none => none
    | some rts =>
      some
        { Summary :=
            { TotalSecond := seconds total
              SlowestSecond := slowest
              FastestSecond := fastest
              AverageSecond := average
              RequestsPerSec := rps
              TotalSize := if 0 < rep.sizeTotal then rep.sizeTotal else 0
              SizePerRequest :=
                if 0 < rep.sizeTotal then rep.sizeTotal / (lats.length : Int) else 0 }
          StatusCodeDist := some rep.statusCodeDist
          ResponseTimes := some rts
          LatencyDist := some (printLatencies lats)
          ErrorDist := if rep.errorDist.isEmpty then none else some rep.errorDist }
  else
    some
      { Summary := zeroSummary
        StatusCodeDist := none
        ResponseTimes := none
        LatencyDist := none
        ErrorDist := if rep.errorDist.isEmpty then none else some rep.errorDist }

/-- finalize: drain the buffered records, then compute rps and average and
print.  total is the wall-clock duration measured by Run. -/
def finalize (results : List result) (total : Duration) : Option ReportResult :=
  let rep := collect results
  let rps := (rep.lats.length : ℚ) / seconds total
  let average := rep.avgTotal / (rep.lats.length : ℚ)
  print rep total rps average

/-- Total number of outcomes the report accounts for: the sum of the counts
in the status code distribution plus the sum of the counts in the error
distribution (a nil map contributes zero). -/
def accounted (rep : ReportResult) : Nat :=
  mapValuesSum (rep.StatusCodeDist.getD []) + mapValuesSum (rep.ErrorDist.getD [])

/-- Execution model for Run with C = 1: the single worker performs, for its
k-th job, first wg.Done() (action 2k) and then the send of record k on the
buffered result channel (action 2k+1); the main goroutine returns from
wg.Wait() only after all N Done actions and then drains the channel
non-blockingly.  A schedule is the number p of worker actions that precede
the drain; the sends among them are the odd action indices below p, that is
p / 2 of them, so the drain consumes the first p / 2 records. -/
def drainedRecords (records : List result) (p : Nat) : List result :=
  records.take (p / 2)

/-- A schedule p is realisable iff the drain happens after the last Done
(action index 2N-2) has occurred: 2N-1 <= p <= 2N. -/
def validSchedule (records : List result) (p : Nat) : Prop :=
  2 * records.length - 1 ≤ p ∧ p ≤ 2 * records.length

instance validScheduleDecidable (records : List result) (p : Nat) :
    Decidable (validSchedule records p) :=
  inferInstanceAs (Decidable (2 * records.length - 1 ≤ p ∧ p ≤ 2 * records.length))

/-- Run for C = 1 under schedule p: finalize consumes exactly the records
buffered when the drain runs. -/
def runC1 (records : List result) (p : Nat) (total : Duration) : Option ReportResult :=
  finalize (drainedRecords records p) total

/-- What the worker observes from one exchange when client.Do succeeds: the
status code, the content length, and the outcome of io.Copy draining the
response body (none when the copy succeeds). -/
structure Response where
  StatusCode : Int
  ContentLength : Int
  bodyReadErr : Option String
deriving DecidableEq

/-- The per-job body of runWorker: on transport failure the status code and
content length keep their zero values; on success the observed code and
length are recorded, and with ReadAll set the error field is overwritten by
the outcome of reading the body.  The elapsed wall-clock duration is
measured around the whole exchange and is a parameter here. -/
def runWorkerStep (ReadAll : Bool) (exchange : Except String Response) (elapsed : Duration) :
    result :=
  match exchange with
  | .error e =>
    { err := some e, statusCode := 0, duration := elapsed, contentLength := 0 }
  | .ok resp =>
    { err := if ReadAll then resp.bodyReadErr else none
      statusCode := resp.StatusCode
      duration := elapsed
      contentLength := resp.ContentLength }

/-- Go time.Tick: returns the ticking channel, or nil (modelled as none)
when the duration is not positive.  The argument is in nanoseconds. -/
def timeTick (d : Int) : Option Unit :=
  if d ≤ 0 then none else some ()

/-- The throttle channel of runWorkers: created by time.Tick with interval
Duration(1000000 / Qps) microseconds (integer division) when Qps > 0, and
left as the nil channel otherwise. -/
def throttleChan (Qps : Int) : Option Unit :=
  if 0 < Qps then timeTick (1000000 / Qps * 1000) else none

/-- The enqueue loop of runWorkers: for each of N jobs, when Qps > 0 first
receive from the throttle channel; a receive from the nil channel blocks
forever, modelled as none.  On completion, returns the number of jobs
enqueued. -/
def enqueueLoop (Qps : Int) (throttle : Option Unit) : Nat → Option Nat
  | 0 => some 0
  | n + 1 =>
    if 0 < Qps then
      match throttle with
      | none => none
      | some _ => (enqueueLoop Qps throttle n).map (· + 1)
    else
      (enqueueLoop Qps throttle n).map (· + 1)

/-- The producer side of runWorkers: build the throttle channel from Qps and
run the enqueue loop for all N jobs. -/
def runWorkersEnqueue (Qps : Int) (N : Nat) : Option Nat :=
  enqueueLoop Qps (throttleChan Qps) N

/-- A pointer into the heap. -/
abbrev Ptr := Nat

/-- Explicit heap for the reference-typed parts of an http.Request: the
backing arrays of []string header values, the http.Header maps (Go maps are
references), and the body readers, identified by their contents. -/
structure Heap where
  slices : List (List String)
  headerMaps : List (List (String × Ptr))
  readers : List String
deriving DecidableEq

/-- The modelled fields of an http.Request.  URL is the *url.URL pointer;
Method, Host and ContentLength stand for the remaining value-typed fields
that the shallow struct copy duplicates; Header points at a header map in
the heap and Body at a reader. -/
structure Request where
  Method : String
  URL : Ptr
  Host : String
  ContentLength : Int
  Header : Ptr
  Body : Ptr
deriving DecidableEq

/-- Read a header map through the heap, resolving each value slice. -/
def readHeader (h : Heap) (p : Ptr) : List (String × List String) :=
  (h.headerMaps.getD p []).map fun kv => (kv.1, h.slices.getD kv.2 [])

/-- Read a body reader through the heap. -/
def readBody (h : Heap) (p : Ptr) : String :=
  h.readers.getD p ""

/-- A request is valid in a heap when its header map exists, every value
slice the map mentions exists, and its body reader exists. -/
def validRequest (h : Heap) (r : Request) : Prop :=
  r.Header < h.headerMaps.length ∧
    (∀ kv ∈ h.headerMaps.getD r.Header [], kv.2 < h.slices.length) ∧
    r.Body < h.readers.length

instance validRequestDecidable (h : Heap) (r : Request) : Decidable (validRequest h r) :=
  inferInstanceAs (Decidable (r.Header < h.headerMaps.length ∧
    (∀ kv ∈ h.headerMaps.getD r.Header [], kv.2 < h.slices.length) ∧
    r.Body < h.readers.length))

/-- The header copy loop of cloneRequest: for every key, allocate a fresh
slice holding a copy of the value (append of the elements to a nil slice)
and bind the key to the fresh slice.  Go iterates the map in unspecified
order; the association list order is kept, which is one admissible order. -/
def copyEntries (h : Heap) : List (String × Ptr) → Heap × List (String × Ptr)
  | [] => (h, [])
  | (k, sp) :: rest =>
    let content := h.slices.getD sp []
    let p := h.slices.length
    let h1 : Heap := { h with slices := h.slices ++ [content] }
    let (h2, rest2) := copyEntries h1 rest
    (h2, (k, p) :: rest2)

/-- cloneRequest: r2 := new(http.Request); *r2 = *r is the shallow struct
copy (every field, the URL pointer included); then the Header map is deep
copied into a freshly allocated map with freshly allocated value slices, and
the Body is a fresh reader over the supplied body string. -/
def cloneRequest (h : Heap) (r : Request) (body : String) : Heap × Request :=
  let (h1, entries) := copyEntries h (h.headerMaps.getD r.Header [])
  let mp := h1.headerMaps.length
  let h2 : Heap := { h1 with headerMaps := h1.headerMaps ++ [entries] }
  let bp := h2.readers.length
  let h3 : Heap := { h2 with readers := h2.readers ++ [body] }
  (h3, { r with Header := mp, Body := bp })

/-- Replace the binding of key k in a header map (hdr[k] = slice). -/
def setAssoc (m : List (String × Ptr)) (k : String) (p : Ptr) : List (String × Ptr) :=
  match m with
  | [] => [(k, p)]
  | (k1, p1) :: rest =>
    if k = k1 then (k, p) :: rest else (k1, p1) :: setAssoc rest k p

/-- A mutation of the headers reached through one request: either bind a key
to a newly allocated value slice (hdr[k] = []string allocation), or write
through the shared backing array of the slice bound to an existing key. -/
inductive HeaderMutation where
  | setKey (k : String) (vs : List String)
  | appendVal (k : String) (s : String)

/-- Apply a header mutation to the header map at pointer p. -/
def applyMutation (h : Heap) (p : Ptr) (m : HeaderMutation) : Heap :=
  match m with
  | .setKey k vs =>
    let sp := h.slices.length
    let h1 : Heap := { h with slices := h.slices ++ [vs] }
    { h1 with headerMaps := h1.headerMaps.set p (setAssoc (h1.headerMaps.getD p []) k sp) }
  | .appendVal k s =>
    match (h.headerMaps.getD p []).lookup k with
    | none => h
    | some sp => { h with slices := h.slices.set sp (h.slices.getD sp [] ++ [s]) }

/-- One step of the percentile walk as the specification words it: at index
i, when a target percentile is still unfilled and the rank i*100/len of the
current sample has reached it, assign the sample to that percentile and
advance to the next one. -/
def specStep (lats : List ℚ) (acc : List ℚ × Nat) (i : Nat) : List ℚ × Nat :=
  if acc.2 < pctls.length ∧ pctls.getD acc.2 0 ≤ i * 100 / lats.length then
    (acc.1.set acc.2 (lats.getD i 0), acc.2 + 1)
  else acc

/-- The percentile walk exactly as the specification words it: walk the
ascending-sorted latency sequence once; for 0-based index i compute the rank
i*100/len; assign the current latency to target percentile j the first time
the rank reaches pctls[j], advancing j monotonically.  Returns the filled
data array and the number of filled percentiles. -/
def specPercentileWalk (lats : List ℚ) : List ℚ × Nat :=
  (List.range lats.length).foldl (specStep lats) (List.replicate pctls.length 0, 0)

/-- The latency seconds of the successful records, in arrival order. -/
def successSeconds (results : List result) : List ℚ :=
  results.filterMap fun res =>
    match res.err with
    | some _ => none
    | none => some (seconds res.duration)

/-- The status codes of the successful records, in arrival order. -/
def successCodes (results : List result) : List Int :=
  results.filterMap fun res =>
    match res.err with
    | some _ => none
    | none => some res.statusCode

/-- The error messages of the failed records, in arrival order. -/
def errMessages (results : List result) : List String :=
  results.filterMap fun res => res.err

/-- The contribution of one record to sizeTotal: its content length when it
succeeded with a positive content length, zero otherwise. -/
def sizeContribution (res : result) : Int :=
  match res.err with
  | some _ => 0
  | none => if 0 < res.contentLength then res.contentLength else 0

/-! ### Generic list helpers -/

theorem getD_set_eq {α : Type} (l : List α) (i : Nat) (v : α) (d : α) (h : i < l.length) :
    (l.set i v).getD i d = v := by
  simp [List.getD, List.getElem?_set_self, h]

theorem getD_set_ne {α : Type} (l : List α) (i j : Nat) (v : α) (d : α) (h : i ≠ j) :
    (l.set i v).getD j d = l.getD j d := by
  simp [List.getD, List.getElem?_set_ne h]

theorem getD_append_left {α : Type} (l₁ l₂ : List α) (j : Nat) (d : α) (h : j < l₁.length) :
    (l₁ ++ l₂).getD j d = l₁.getD j d := by
  simp [List.getD, List.getElem?_append, h]

theorem getD_append_self {α : Type} (l : List α) (v : α) (d : α) :
    (l ++ [v]).getD l.length d = v := by
  simp [List.getD, List.getElem?_append]

theorem getD_replicate_zero {α : Type} (n j : Nat) (d : α) :
    (List.replicate n d).getD j d = d := by
  simp [List.getD, List.getElem?_replicate]
  split <;> rfl

theorem sum_set_inc (l : List Nat) (i : Nat) (h : i < l.length) :
    (l.set i (l.getD i 0 + 1)).sum = l.sum + 1 := by
  induction l generalizing i with
  | nil => simp at h
  | cons a t ih =>
    cases i with
    | zero => simp [List.getD_cons_zero]; omega
    | succ i =>
      rw [List.getD_cons_succ, List.set_cons_succ, List.sum_cons, List.sum_cons,
        ih i (by simpa using h)]
      omega

theorem sum_pos_exists (l : List Nat) (h : 0 < l.sum) :
    ∃ i, i < l.length ∧ 0 < l.getD i 0 := by
  induction l with
  | nil => simp at h
  | cons a t ih =>
    by_cases ha : 0 < a
    · exact ⟨0, by simp, by simpa [List.getD]⟩
    · have ht : 0 < t.sum := by simp at h; omega
      obtain ⟨i, hi, hp⟩ := ih ht
      exact ⟨i + 1, by simpa using hi, by simpa [List.getD] using hp⟩

/-! ### Lemmas about the canonical counter maps -/

theorem mapInc_ne_nil {κ : Type} [LinearOrder κ] (m : List (κ × Nat)) (k : κ) :
    mapInc m k ≠ [] := by
  match m with
  | [] => simp [mapInc]
  | (k1, c) :: rest =>
    simp only [mapInc]
    split
    · simp
    · split <;> simp

theorem mapValuesSum_mapInc {κ : Type} [LinearOrder κ] (m : List (κ × Nat)) (k : κ) :
    mapValuesSum (mapInc m k) = mapValuesSum m + 1 := by
  induction m with
  | nil => simp [mapInc, mapValuesSum]
  | cons a rest ih =>
    obtain ⟨k1, c⟩ := a
    simp only [mapInc]
    split
    · simp [mapValuesSum]; omega
    · split
      · simp [mapValuesSum]; omega
      · simp only [mapValuesSum, List.map_cons, List.sum_cons] at ih ⊢
        omega

theorem mapInc_nil {κ : Type} [LinearOrder κ] (k : κ) :
    mapInc ([] : List (κ × Nat)) k = [(k, 1)] := rfl

theorem mapInc_cons_self {κ : Type} [LinearOrder κ] (k : κ) (c : Nat) (rest : List (κ × Nat)) :
    mapInc ((k, c) :: rest) k = (k, c + 1) :: rest := by
  simp [mapInc]

theorem mapInc_cons_of_lt {κ : Type} [LinearOrder κ] {k k1 : κ} (c : Nat)
    (rest : List (κ × Nat)) (h : k < k1) :
    mapInc ((k1, c) :: rest) k = (k, 1) :: (k1, c) :: rest := by
  simp [mapInc, h, h.ne]

theorem mapInc_cons_of_gt {κ : Type} [LinearOrder κ] {k k1 : κ} (c : Nat)
    (rest : List (κ × Nat)) (h : k1 < k) :
    mapInc ((k1, c) :: rest) k = (k1, c) :: mapInc rest k := by
  simp [mapInc, h.ne', h.asymm]

theorem mapInc_comm {κ : Type} [LinearOrder κ] (m : List (κ × Nat)) (a b : κ) :
    mapInc (mapInc m a) b = mapInc (mapInc m b) a := by
  induction m with
  | nil =>
    rcases lt_trichotomy a b with h | h | h
    · rw [mapInc_nil, mapInc_nil, mapInc_cons_of_gt 1 [] h, mapInc_cons_of_lt 1 [] h, mapInc_nil]
    · subst h; rfl
    · rw [mapInc_nil, mapInc_nil, mapInc_cons_of_lt 1 [] h, mapInc_cons_of_gt 1 [] h, mapInc_nil]
  | cons p rest ih =>
    obtain ⟨k1, c⟩ := p
    rcases lt_trichotomy a k1 with ha | ha | ha <;> rcases lt_trichotomy b k1 with hb | hb | hb
    · rcases lt_trichotomy a b with hab | hab | hab
      · rw [mapInc_cons_of_lt c rest ha, mapInc_cons_of_gt 1 _ hab, mapInc_cons_of_lt c rest hb,
          mapInc_cons_of_lt 1 _ hab]
      · subst hab; rfl
      · rw [mapInc_cons_of_lt c rest ha, mapInc_cons_of_lt c rest hb, mapInc_cons_of_lt 1 _ hab,
          mapInc_cons_of_gt 1 _ hab, mapInc_cons_of_lt c rest ha]
    · subst hb
      rw [mapInc_cons_of_lt c rest ha, mapInc_cons_of_gt 1 _ ha, mapInc_cons_self,
        mapInc_cons_of_lt (c + 1) rest ha]
    · rw [mapInc_cons_of_lt c rest ha, mapInc_cons_of_gt 1 _ (ha.trans hb),
        mapInc_cons_of_gt c rest hb, mapInc_cons_of_lt c _ ha]
    · subst ha
      rw [mapInc_cons_self, mapInc_cons_of_lt (c + 1) rest hb, mapInc_cons_of_lt c rest hb,
        mapInc_cons_of_gt 1 _ hb, mapInc_cons_self]
    · subst ha; subst hb; rfl
    · subst ha
      rw [mapInc_cons_self, mapInc_cons_of_gt (c + 1) rest hb, mapInc_cons_of_gt c rest hb,
        mapInc_cons_self]
    · rw [mapInc_cons_of_gt c rest ha, mapInc_cons_of_lt c _ hb, mapInc_cons_of_lt c rest hb,
        mapInc_cons_of_gt 1 _ (hb.trans ha), mapInc_cons_of_gt c rest ha]
    · subst hb
      rw [mapInc_cons_of_gt c rest ha, mapInc_cons_self, mapInc_cons_self,
        mapInc_cons_of_gt (c + 1) rest ha]
    · rw [mapInc_cons_of_gt c rest ha, mapInc_cons_of_gt c _ hb, mapInc_cons_of_gt c rest hb,
        mapInc_cons_of_gt c _ ha, ih]

/-! ### Characterization of the drain loop -/

theorem collect_foldl_spec (results : List result) (st : report) :
    results.foldl collectResult st =
      { avgTotal := st.avgTotal + (successSeconds results).sum
        lats := st.lats ++ successSeconds results
        sizeTotal := st.sizeTotal + (results.map sizeContribution).sum
        statusCodeDist := (successCodes results).foldl mapInc st.statusCodeDist
        errorDist := (errMessages results).foldl mapInc st.errorDist } := by
  induction results generalizing st with
  | nil =>
    simp [successSeconds, successCodes, errMessages]
  | cons res rest ih =>
    rw [List.foldl_cons, ih]
    rcases hres : res.err with _ | e
    · simp only [collectResult, hres, successSeconds, successCodes, errMessages,
        sizeContribution, List.filterMap_cons, List.map_cons, List.sum_cons, List.foldl_cons,
        report.mk.injEq]
      refine ⟨add_assoc _ _ _, by simp [List.append_assoc], ?_, trivial, trivial⟩
      split
      · rw [add_assoc]
      · rw [zero_add]
    · simp only [collectResult, hres, successSeconds, successCodes, errMessages,
        sizeContribution, List.filterMap_cons, List.map_cons, List.sum_cons, List.foldl_cons,
        report.mk.injEq]
      exact ⟨trivial, trivial, by rw [zero_add], trivial, trivial⟩

theorem collect_spec (results : List result) :
    collect results =
      { avgTotal := (successSeconds results).sum
        lats := successSeconds results
        sizeTotal := (results.map sizeContribution).sum
        statusCodeDist := (successCodes results).foldl mapInc []
        errorDist := (errMessages results).foldl mapInc [] } := by
  rw [collect, collect_foldl_spec]
  simp [emptyReport]

/-- Sorting is invariant under permutation of the input. -/
theorem insertionSort_perm_eq (l1 l2 : List ℚ) (h : l1.Perm l2) :
    l1.insertionSort (· ≤ ·) = l2.insertionSort (· ≤ ·) :=
  List.eq_of_perm_of_sorted
    ((List.perm_insertionSort _ _).trans (h.trans (List.perm_insertionSort _ _).symm))
    (List.sorted_insertionSort _ _) (List.sorted_insertionSort _ _)

/-- print depends on the latency list only through its sorted version. -/
theorem print_lats_perm (a : ℚ) (l1 l2 : List ℚ) (h : l1.Perm l2) (sz : Int)
    (scd : List (Int × Nat)) (ed : List (String × Nat)) (total : Duration) (rps avg : ℚ) :
    print ⟨a, l1, sz, scd, ed⟩ total rps avg = print ⟨a, l2, sz, scd, ed⟩ total rps avg := by
  simp only [print, insertionSort_perm_eq l1 l2 h]

/-! ### The percentile walk -/

theorem specStep_stuck (lats : List ℚ) (l : List Nat) (data : List ℚ) (j : Nat)
    (hj : pctls.length ≤ j) : l.foldl (specStep lats) (data, j) = (data, j) := by
  induction l with
  | nil => rfl
  | cons i rest ih =>
    rw [List.foldl_cons]
    have hstep : specStep lats (data, j) i = (data, j) := by
      simp only [specStep]
      rw [if_neg]
      intro hc
      exact absurd hc.1 (by omega)
    rw [hstep, ih]

theorem latLoop_eq_foldl (lats : List ℚ) :
    ∀ n i j data, lats.length - i = n →
      latLoop lats data i j = (List.range' i n).foldl (specStep lats) (data, j) := by
  intro n
  induction n with
  | zero =>
    intro i j data h
    rw [latLoop, dif_neg (by omega), List.range'_zero, List.foldl_nil]
  | succ n ih =>
    intro i j data h
    have hi : i < lats.length := by omega
    rw [List.range'_succ, List.foldl_cons]
    by_cases hj : j < pctls.length
    · rw [latLoop, dif_pos ⟨hi, hj⟩]
      by_cases hcond : pctls.getD j 0 ≤ i * 100 / lats.length
      · have hstep : specStep lats (data, j) i = (data.set j (lats.getD i 0), j + 1) := by
          simp only [specStep]
          exact if_pos ⟨hj, hcond⟩
        rw [if_pos hcond, hstep]
        exact ih (i + 1) (j + 1) _ (by omega)
      · have hstep : specStep lats (data, j) i = (data, j) := by
          simp only [specStep]
          exact if_neg fun hc => hcond hc.2
        rw [if_neg hcond, hstep]
        exact ih (i + 1) j data (by omega)
    · have hstep : specStep lats (data, j) i = (data, j) := by
        simp only [specStep]
        exact if_neg fun hc => hj hc.1
      rw [latLoop, dif_neg fun hc => hj hc.2, hstep, specStep_stuck lats _ data j (by omega)]

/-- The printLatencies loop computes exactly the walk the specification
describes. -/
theorem latLoop_spec (lats : List ℚ) :
    latLoop lats (List.replicate pctls.length 0) 0 0 = specPercentileWalk lats := by
  rw [specPercentileWalk, List.range_eq_range']
  exact latLoop_eq_foldl lats lats.length 0 0 _ (by omega)

/-- Entries of the data array at or beyond the final percentile index are
never written and keep their zero initial value. -/
theorem specFold_inv (lats : List ℚ) (l : List Nat) (data : List ℚ) (j : Nat)
    (hdata : ∀ k, j ≤ k → data.getD k 0 = 0) :
    j ≤ (l.foldl (specStep lats) (data, j)).2 ∧
      ∀ k, (l.foldl (specStep lats) (data, j)).2 ≤ k →
        (l.foldl (specStep lats) (data, j)).1.getD k 0 = 0 := by
  induction l generalizing data j with
  | nil => exact ⟨le_refl j, hdata⟩
  | cons i rest ih =>
    rw [List.foldl_cons]
    by_cases hc : j < pctls.length ∧ pctls.getD j 0 ≤ i * 100 / lats.length
    · have hstep : specStep lats (data, j) i = (data.set j (lats.getD i 0), j + 1) := by
        simp only [specStep]
        exact if_pos hc
      rw [hstep]
      have hdata2 : ∀ k, j + 1 ≤ k → (data.set j (lats.getD i 0)).getD k 0 = 0 := by
        intro k hk
        rw [getD_set_ne data j k _ 0 (by omega)]
        exact hdata k (by omega)
      obtain ⟨h1, h2⟩ := ih (data.set j (lats.getD i 0)) (j + 1) hdata2
      exact ⟨by omega, h2⟩
    · have hstep : specStep lats (data, j) i = (data, j) := by
        simp only [specStep]
        exact if_neg hc
      rw [hstep]
      exact ih data j hdata

theorem getD_eq_getElem {α : Type} (l : List α) (d : α) (n : Nat) (h : n < l.length) :
    l.getD n d = l[n] := by
  simp [List.getD, List.getElem?_eq_getElem h]

theorem lookup_eq_none_of_keys {β : Type} (l : List (Nat × β)) (key : Nat)
    (h : ∀ p ∈ l, p.1 ≠ key) : l.lookup key = none := by
  induction l with
  | nil => rfl
  | cons p rest ih =>
    obtain ⟨a, b⟩ := p
    have ha : a ≠ key := h (a, b) (by simp)
    have hbeq : (key == a) = false := beq_eq_false_iff_ne.mpr (Ne.symm ha)
    simp only [List.lookup, hbeq]
    exact ih fun q hq => h q (by simp [hq])

/-- A percentile whose data entry is still zero is omitted from the latency
distribution. -/
theorem printLatencies_lookup_none (lats : List ℚ) (j : Nat) (hj : j < pctls.length)
    (hdata : (latLoop lats (List.replicate pctls.length 0) 0 0).1.getD j 0 = 0) :
    (printLatencies lats).lookup (pctls.getD j 0) = none := by
  apply lookup_eq_none_of_keys
  intro p hp hkey
  rw [printLatencies] at hp
  simp only [List.mem_filter] at hp
  obtain ⟨hpz, hpos⟩ := hp
  obtain ⟨n, hn, hpn⟩ := List.mem_iff_getElem.mp hpz
  have hnp : n < pctls.length := by
    rw [List.length_zip] at hn
    omega
  have hnd : n < (latLoop lats (List.replicate pctls.length 0) 0 0).1.length := by
    rw [List.length_zip] at hn
    omega
  rw [List.getElem_zip] at hpn
  have hinj : ∀ m1, m1 < pctls.length → ∀ m2, m2 < pctls.length →
      pctls.getD m1 0 = pctls.getD m2 0 → m1 = m2 := by decide
  have hkeyn : pctls.getD n 0 = pctls.getD j 0 := by
    rw [getD_eq_getElem pctls 0 n hnp]
    rw [← hpn] at hkey
    exact hkey
  have hnj : n = j := hinj n hnp j hj hkeyn
  subst hnj
  have hzero : p.2 = 0 := by
    rw [← hpn]
    rw [← getD_eq_getElem _ 0 n hnd]
    exact hdata
  rw [hzero] at hpos
  simp at hpos

/-! ### The histogram loop -/

theorem natMax_left (a b : Nat) : a ≤ Nat.max a b := Nat.le_max_left a b

theorem natMax_right (a b : Nat) : b ≤ Nat.max a b := Nat.le_max_right a b

theorem natMax_eq_right {a b : Nat} (h : a ≤ b) : Nat.max a b = b := Nat.max_eq_right h

theorem natMax_eq_left {a b : Nat} (h : b ≤ a) : Nat.max a b = a := Nat.max_eq_left h

theorem histLoop_run (lats buckets : List ℚ) :
    ∀ fuel i bi counts mx,
      counts.length = buckets.length →
      bi < buckets.length →
      (∀ k, i ≤ k → k < lats.length → lats.getD k 0 ≤ buckets.getD (buckets.length - 1) 0) →
      (∀ k, counts.getD k 0 ≤ mx) →
      (mx = 0 ∨ ∃ k, k < counts.length ∧ counts.getD k 0 = mx) →
      lats.length - i + (buckets.length - 1 - bi) < fuel →
      ∃ counts2 mx2,
        histLoop lats buckets counts i bi mx fuel = some (counts2, mx2) ∧
        counts2.length = counts.length ∧
        counts2.sum = counts.sum + (lats.length - i) ∧
        (∀ k, counts2.getD k 0 ≤ mx2) ∧
        (mx2 = 0 ∨ ∃ k, k < counts2.length ∧ counts2.getD k 0 = mx2) ∧
        mx ≤ mx2 := by
  intro fuel
  induction fuel with
  | zero => intro i bi counts mx _ _ _ _ _ hfuel; omega
  | succ fuel ih =>
    intro i bi counts mx hlen hbi hle hbound hatt hfuel
    rw [histLoop]
    by_cases hi : i < lats.length
    · rw [if_pos hi]
      by_cases hfit : lats.getD i 0 ≤ buckets.getD bi 0
      · rw [if_pos hfit]
        have hbic : bi < counts.length := by omega
        have hlen2 : (counts.set bi (counts.getD bi 0 + 1)).length = buckets.length := by
          rw [List.length_set]; exact hlen
        have hbound2 : ∀ k, (counts.set bi (counts.getD bi 0 + 1)).getD k 0 ≤
            Nat.max mx (counts.getD bi 0 + 1) := by
          intro k
          by_cases hk : bi = k
          · subst hk
            rw [getD_set_eq _ _ _ _ hbic]
            exact natMax_right _ _
          · rw [getD_set_ne _ _ _ _ _ hk]
            exact le_trans (hbound k) (natMax_left _ _)
        have hatt2 : Nat.max mx (counts.getD bi 0 + 1) = 0 ∨
            ∃ k, k < (counts.set bi (counts.getD bi 0 + 1)).length ∧
              (counts.set bi (counts.getD bi 0 + 1)).getD k 0 =
                Nat.max mx (counts.getD bi 0 + 1) := by
          right
          by_cases hcm : mx ≤ counts.getD bi 0 + 1
          · refine ⟨bi, by rw [List.length_set]; exact hbic, ?_⟩
            rw [getD_set_eq _ _ _ _ hbic, natMax_eq_right hcm]
          · have hmx : Nat.max mx (counts.getD bi 0 + 1) = mx :=
              Nat.max_eq_left (by omega)
            rcases hatt with h0 | ⟨k, hk, hkv⟩
            · omega
            · have hkbi : k ≠ bi := by
                intro h
                subst h
                omega
              refine ⟨k, by rw [List.length_set]; exact hk, ?_⟩
              rw [getD_set_ne _ _ _ _ _ (Ne.symm hkbi), hmx]
              exact hkv
        obtain ⟨c2, m2, heq, hl2, hs2, hb2, ha2, hm2⟩ :=
          ih (i + 1) bi (counts.set bi (counts.getD bi 0 + 1)) (Nat.max mx (counts.getD bi 0 + 1))
            hlen2 hbi (fun k hk hkl => hle k (by omega) hkl) hbound2 hatt2 (by omega)
        refine ⟨c2, m2, heq, hl2.trans (List.length_set _ _ _), ?_, hb2, ha2,
          le_trans (natMax_left _ _) hm2⟩
        rw [hs2, sum_set_inc counts bi hbic]
        clear ih heq hl2 hs2 hb2 ha2 hm2 hatt2 hbound2 hatt hbound hle hfit
        omega
      · rw [if_neg hfit]
        by_cases hlast : bi < buckets.length - 1
        · rw [if_pos hlast]
          obtain ⟨c2, m2, heq, hl2, hs2, hb2, ha2, hm2⟩ :=
            ih i (bi + 1) counts mx hlen (by omega) hle hbound hatt (by omega)
          exact ⟨c2, m2, heq, hl2, hs2, hb2, ha2, hm2⟩
        · exfalso
          have hbieq : bi = buckets.length - 1 := by omega
          subst hbieq
          exact hfit (hle i (le_refl i) hi)
    · rw [if_neg hi]
      exact ⟨counts, mx, rfl, rfl, by omega, hbound, hatt, le_refl mx⟩

theorem histBuckets_length (fastest slowest : ℚ) : (histBuckets fastest slowest).length = 11 := by
  rw [histBuckets, List.length_append, List.length_map, List.length_range,
    List.length_singleton]

theorem histBuckets_top (fastest slowest : ℚ) :
    (histBuckets fastest slowest).getD 10 0 = slowest := by
  have h : ((List.range 10).map fun i : Nat =>
      fastest + (slowest - fastest) / 10 * (i : ℚ)).length = 10 := by
    rw [List.length_map, List.length_range]
  rw [histBuckets]
  rw [show (10 : Nat) = ((List.range 10).map fun i : Nat =>
    fastest + (slowest - fastest) / 10 * (i : ℚ)).length from h.symm]
  exact getD_append_self _ _ _

/-- In a sorted list every element is at most the last element. -/
theorem sorted_getD_le_last (lats : List ℚ) (hs : lats.Sorted (· ≤ ·)) (k : Nat)
    (hk : k < lats.length) : lats.getD k 0 ≤ lats.getD (lats.length - 1) 0 := by
  have hlast : lats.length - 1 < lats.length := by omega
  rw [getD_eq_getElem _ _ _ hk, getD_eq_getElem _ _ _ hlast]
  by_cases hkl : k = lats.length - 1
  · subst hkl; exact le_refl _
  · have hlt : k < lats.length - 1 := by omega
    exact List.pairwise_iff_getElem.mp hs k (lats.length - 1) hk hlast hlt

/-- Read back a list from getD over the index range. -/
theorem range_map_getD {α : Type} (l : List α) (d : α) :
    ((List.range l.length).map fun i => l.getD i d) = l := by
  apply List.ext_getElem
  · simp
  · intro i h1 h2
    simp only [List.getElem_map, List.getElem_range]
    exact getD_eq_getElem l d i h2

theorem mkResponseTimes_length (b : List ℚ) (c : List Nat) (m : Nat) :
    (mkResponseTimes b c m).length = b.length := by
  rw [mkResponseTimes, List.length_map, List.length_range]

theorem mkResponseTimes_counts (b : List ℚ) (c : List Nat) (m : Nat)
    (hl : c.length = b.length) :
    (mkResponseTimes b c m).map ResponseTime.Count = c := by
  have h1 : (mkResponseTimes b c m).map ResponseTime.Count =
      (List.range b.length).map fun i => c.getD i 0 := by
    rw [mkResponseTimes, List.map_map]
    rfl
  rw [h1, ← hl, range_map_getD]

theorem mkResponseTimes_barLen_le (b : List ℚ) (c : List Nat) (m : Nat)
    (hbound : ∀ k, c.getD k 0 ≤ m) :
    ∀ rt ∈ mkResponseTimes b c m, rt.BarLen ≤ 40 := by
  intro rt hrt
  rw [mkResponseTimes] at hrt
  simp only [List.mem_map, List.mem_range] at hrt
  obtain ⟨i, hi, rfl⟩ := hrt
  show (if 0 < m then c.getD i 0 * 40 / m else 0) ≤ 40
  split
  · next hm =>
    exact le_of_le_of_eq
      (Nat.div_le_div_right (Nat.mul_le_mul_right 40 (hbound i)))
      (Nat.mul_div_cancel_left 40 hm)
  · exact Nat.zero_le 40

theorem mkResponseTimes_barLen_attained (b : List ℚ) (c : List Nat) (m : Nat) (hm : 0 < m)
    (hatt : ∃ k, k < c.length ∧ c.getD k 0 = m) (hlen : c.length = b.length) :
    ∃ rt ∈ mkResponseTimes b c m, rt.BarLen = 40 := by
  obtain ⟨k, hkl, hkv⟩ := hatt
  rw [mkResponseTimes]
  refine ⟨_, List.mem_map_of_mem _ (List.mem_range.mpr (hlen ▸ hkl)), ?_⟩
  show (if 0 < m then c.getD k 0 * 40 / m else 0) = 40
  rw [if_pos hm, hkv]
  exact Nat.mul_div_cancel_left 40 hm

theorem mkResponseTimes_zero_bars (b : List ℚ) (c : List Nat) :
    ∀ rt ∈ mkResponseTimes b c 0, rt.BarLen = 0 := by
  intro rt hrt
  rw [mkResponseTimes] at hrt
  simp only [List.mem_map, List.mem_range] at hrt
  obtain ⟨i, hi, rfl⟩ := hrt
  show (if 0 < 0 then c.getD i 0 * 40 / 0 else 0) = 0
  rw [if_neg (by omega)]

theorem printHistogram_spec (lats : List ℚ) (hne : 0 < lats.length)
    (hs : lats.Sorted (· ≤ ·)) :
    ∃ counts mx,
      printHistogram lats (lats.getD 0 0) (lats.getD (lats.length - 1) 0) =
        some (mkResponseTimes
          (histBuckets (lats.getD 0 0) (lats.getD (lats.length - 1) 0)) counts mx) ∧
      counts.length = 11 ∧
      counts.sum = lats.length ∧
      (∀ k, counts.getD k 0 ≤ mx) ∧
      (∃ k, k < counts.length ∧ counts.getD k 0 = mx) ∧
      0 < mx := by
  have hblen := histBuckets_length (lats.getD 0 0) (lats.getD (lats.length - 1) 0)
  have htop := histBuckets_top (lats.getD 0 0) (lats.getD (lats.length - 1) 0)
  obtain ⟨c2, m2, heq, hl2, hs2, hb2, ha2, hm2⟩ :=
    histLoop_run lats (histBuckets (lats.getD 0 0) (lats.getD (lats.length - 1) 0))
      (lats.length + (histBuckets (lats.getD 0 0) (lats.getD (lats.length - 1) 0)).length + 1)
      0 0 (List.replicate 11 0) 0
      (by rw [List.length_replicate, hblen])
      (by omega)
      (by
        intro k hk0 hkl
        rw [show (histBuckets (lats.getD 0 0) (lats.getD (lats.length - 1) 0)).length - 1 = 10
          by omega, htop]
        exact sorted_getD_le_last lats hs k hkl)
      (by
        intro k
        rw [getD_replicate_zero])
      (Or.inl rfl)
      (by omega)
  have hrlen : (List.replicate 11 (0 : Nat)).length = 11 := List.length_replicate 11 0
  have hrsum : (List.replicate 11 (0 : Nat)).sum = 0 := by decide
  have hc2len : c2.length = 11 := by rw [hl2, hrlen]
  have hc2sum : c2.sum = lats.length := by
    rw [hs2, hrsum, Nat.zero_add, Nat.sub_zero]
  have hmxpos : 0 < m2 := by
    have hspos : 0 < c2.sum := by rw [hc2sum]; exact hne
    obtain ⟨k, hk, hkp⟩ := sum_pos_exists c2 hspos
    exact lt_of_lt_of_le hkp (hb2 k)
  have hattained : ∃ k, k < c2.length ∧ c2.getD k 0 = m2 := by
    rcases ha2 with h0 | h
    · exact absurd (h0 ▸ hmxpos) (lt_irrefl 0)
    · exact h
  refine ⟨c2, m2, ?_, hc2len, hc2sum, hb2, hattained, hmxpos⟩
  rw [printHistogram]
  simp only [heq]

theorem print_isSome (rep : report) (total : Duration) (rps avg : ℚ) :
    (print rep total rps avg).isSome := by
  simp only [print]
  by_cases h : 0 < (rep.lats.insertionSort (· ≤ ·)).length
  · rw [if_pos h]
    obtain ⟨c2, m2, heq, _⟩ :=
      printHistogram_spec (rep.lats.insertionSort (· ≤ ·)) h (List.sorted_insertionSort _ _)
    rw [heq]
    rfl
  · rw [if_neg h]
    rfl

theorem finalize_isSome (results : List result) (total : Duration) :
    (finalize results total).isSome := by
  simp only [finalize]
  exact print_isSome _ _ _ _

/-! ### The heap model of cloneRequest -/

theorem copyEntries_cons (h : Heap) (k : String) (sp : Ptr) (rest : List (String × Ptr)) :
    copyEntries h ((k, sp) :: rest) =
      ((copyEntries { h with slices := h.slices ++ [h.slices.getD sp []] } rest).1,
        (k, h.slices.length) ::
          (copyEntries { h with slices := h.slices ++ [h.slices.getD sp []] } rest).2) := by
  rfl

theorem copyEntries_spec (entries : List (String × Ptr)) : ∀ h : Heap,
    (∃ tail, (copyEntries h entries).1.slices = h.slices ++ tail) ∧
    (copyEntries h entries).1.headerMaps = h.headerMaps ∧
    (copyEntries h entries).1.readers = h.readers ∧
    (∀ kv ∈ (copyEntries h entries).2,
      h.slices.length ≤ kv.2 ∧ kv.2 < (copyEntries h entries).1.slices.length) := by
  induction entries with
  | nil =>
    intro h
    refine ⟨⟨[], by simp [copyEntries]⟩, rfl, rfl, ?_⟩
    intro kv hkv
    simp [copyEntries] at hkv
  | cons e rest ih =>
    intro h
    obtain ⟨k, sp⟩ := e
    rw [copyEntries_cons]
    obtain ⟨⟨tail, htail⟩, hmaps, hreaders, hrange⟩ :=
      ih { h with slices := h.slices ++ [h.slices.getD sp []] }
    simp only at htail hmaps hreaders hrange
    refine ⟨⟨[h.slices.getD sp []] ++ tail, by rw [htail, List.append_assoc]⟩,
      hmaps, hreaders, ?_⟩
    intro kv hkv
    rcases List.mem_cons.mp hkv with hhead | htl
    · subst hhead
      refine ⟨le_refl _, ?_⟩
      show h.slices.length <
        (copyEntries { h with slices := h.slices ++ [h.slices.getD sp []] } rest).1.slices.length
      rw [htail, List.length_append, List.length_append, List.length_singleton]
      omega
    · obtain ⟨h1, h2⟩ := hrange kv htl
      rw [List.length_append, List.length_singleton] at h1
      exact ⟨by omega, h2⟩

theorem cloneRequest_eq (h : Heap) (r : Request) (body : String) :
    cloneRequest h r body =
      ({ slices := (copyEntries h (h.headerMaps.getD r.Header [])).1.slices
         headerMaps := (copyEntries h (h.headerMaps.getD r.Header [])).1.headerMaps ++
           [(copyEntries h (h.headerMaps.getD r.Header [])).2]
         readers := (copyEntries h (h.headerMaps.getD r.Header [])).1.readers ++ [body] },
       { r with
         Header := (copyEntries h (h.headerMaps.getD r.Header [])).1.headerMaps.length
         Body := (copyEntries h (h.headerMaps.getD r.Header [])).1.readers.length }) := by
  rfl

/-- The facts about one clone that the claims need: how the heap grew, which
pointers the clone carries, and the range of the freshly allocated value
slices. -/
theorem cloneRequest_facts (h : Heap) (r : Request) (body : String) :
    (∃ tail, (cloneRequest h r body).1.slices = h.slices ++ tail) ∧
    (cloneRequest h r body).1.headerMaps =
      h.headerMaps ++ [(copyEntries h (h.headerMaps.getD r.Header [])).2] ∧
    (cloneRequest h r body).1.readers = h.readers ++ [body] ∧
    (cloneRequest h r body).2.Header = h.headerMaps.length ∧
    (cloneRequest h r body).2.Body = h.readers.length ∧
    (cloneRequest h r body).2.Method = r.Method ∧
    (cloneRequest h r body).2.URL = r.URL ∧
    (cloneRequest h r body).2.Host = r.Host ∧
    (cloneRequest h r body).2.ContentLength = r.ContentLength ∧
    (∀ kv ∈ (copyEntries h (h.headerMaps.getD r.Header [])).2,
      h.slices.length ≤ kv.2 ∧ kv.2 < (cloneRequest h r body).1.slices.length) := by
  obtain ⟨⟨tail, htail⟩, hmaps, hreaders, hrange⟩ :=
    copyEntries_spec (h.headerMaps.getD r.Header []) h
  rw [cloneRequest_eq]
  refine ⟨⟨tail, ?_⟩, ?_, ?_, ?_, ?_, rfl, rfl, rfl, rfl, ?_⟩
  · simpa using htail
  · simp only [hmaps]
  · simp only [hreaders]
  · simp only [hmaps]
  · simp only [hreaders]
  · intro kv hkv
    simpa using hrange kv hkv

theorem readHeader_clone_preserved (h : Heap) (r : Request) (body : String) (q : Ptr)
    (hq : q < h.headerMaps.length)
    (hvals : ∀ kv ∈ h.headerMaps.getD q [], kv.2 < h.slices.length) :
    readHeader (cloneRequest h r body).1 q = readHeader h q := by
  obtain ⟨⟨tail, htail⟩, hmaps, hreaders, _⟩ := cloneRequest_facts h r body
  rw [readHeader, readHeader, hmaps, getD_append_left _ _ _ _ hq]
  apply List.map_congr_left
  intro kv hkv
  rw [htail, getD_append_left _ _ _ _ (hvals kv hkv)]

theorem readBody_clone_preserved (h : Heap) (r : Request) (body : String) (q : Ptr)
    (hq : q < h.readers.length) :
    readBody (cloneRequest h r body).1 q = readBody h q := by
  obtain ⟨_, _, hreaders, _⟩ := cloneRequest_facts h r body
  rw [readBody, readBody, hreaders, getD_append_left _ _ _ _ hq]

theorem lookup_mem {α β : Type} [BEq α] [LawfulBEq α] (l : List (α × β)) (key : α) (v : β)
    (h : l.lookup key = some v) : (key, v) ∈ l := by
  induction l with
  | nil => simp [List.lookup] at h
  | cons p rest ih =>
    obtain ⟨a, b⟩ := p
    rw [List.lookup] at h
    cases hb : key == a with
    | true =>
      rw [hb] at h
      have hkey : key = a := eq_of_beq hb
      have hv : b = v := by
        simpa using h
      subst hkey
      subst hv
      exact List.mem_cons_self _ _
    | false =>
      rw [hb] at h
      exact List.mem_cons_of_mem _ (ih h)

/-- Mutating the header map at pointer p leaves the headers read through a
different pointer q untouched, provided the value slices of q are disjoint
from those reachable from p. -/
theorem readHeader_applyMutation_ne (h : Heap) (p q : Ptr) (m : HeaderMutation)
    (hpq : q ≠ p)
    (hqvals : ∀ kv ∈ h.headerMaps.getD q [], kv.2 < h.slices.length)
    (hdisj : ∀ kv ∈ h.headerMaps.getD q [], ∀ kv2 ∈ h.headerMaps.getD p [], kv.2 ≠ kv2.2) :
    readHeader (applyMutation h p m) q = readHeader h q := by
  cases m with
  | setKey k vs =>
    simp only [applyMutation, readHeader]
    rw [getD_set_ne _ _ _ _ _ (Ne.symm hpq)]
    apply List.map_congr_left
    intro kv hkv
    rw [getD_append_left _ _ _ _ (hqvals kv hkv)]
  | appendVal k s0 =>
    simp only [applyMutation]
    cases hl : (h.headerMaps.getD p []).lookup k with
    | none => rfl
    | some sp =>
      have hmem : (k, sp) ∈ h.headerMaps.getD p [] := lookup_mem _ _ _ hl
      simp only [readHeader]
      apply List.map_congr_left
      intro kv hkv
      rw [getD_set_ne _ _ _ _ _ (Ne.symm (hdisj kv hkv (k, sp) hmem))]

/-! ### Reports with only errors, and reports with no errors -/

theorem successSeconds_all_errors (rs : List result) (herr : ∀ res ∈ rs, res.err.isSome) :
    successSeconds rs = [] := by
  rw [successSeconds, List.filterMap_eq_nil]
  intro res hres
  have hs := herr res hres
  rcases hr : res.err with _ | e
  · rw [hr] at hs
    simp at hs
  · simp

theorem errMessages_no_errors (rs : List result) (hok : ∀ res ∈ rs, res.err = none) :
    errMessages rs = [] := by
  rw [errMessages, List.filterMap_eq_nil]
  exact hok

theorem foldl_mapInc_ne_nil {κ : Type} [LinearOrder κ] (l : List κ) :
    ∀ m : List (κ × Nat), m ≠ [] ∨ l ≠ [] → l.foldl mapInc m ≠ [] := by
  induction l with
  | nil =>
    intro m hm
    rcases hm with hm | hm
    · exact hm
    · exact absurd rfl hm
  | cons a rest ih =>
    intro m _
    rw [List.foldl_cons]
    exact ih (mapInc m a) (Or.inl (mapInc_ne_nil m a))

theorem errMessages_cons_ne_nil (rs : List result) (hne : rs ≠ [])
    (herr : ∀ res ∈ rs, res.err.isSome) : errMessages rs ≠ [] := by
  cases rs with
  | nil => exact absurd rfl hne
  | cons res rest =>
    rcases hr : res.err with _ | e
    · exact absurd (herr res (List.mem_cons_self _ _)) (by simp [hr])
    · rw [errMessages, List.filterMap_cons]
      simp [hr]

theorem print_empty (a : ℚ) (sz : Int) (scd : List (Int × Nat)) (ed : List (String × Nat))
    (total : Duration) (rps avg : ℚ) :
    print ⟨a, [], sz, scd, ed⟩ total rps avg =
      some
        { Summary := zeroSummary
          StatusCodeDist := none
          ResponseTimes := none
          LatencyDist := none
          ErrorDist := if ed.isEmpty then none else some ed } := rfl

theorem print_errorDist (rep : report) (total : Duration) (rps avg : ℚ) :
    (print rep total rps avg).map ReportResult.ErrorDist =
      some (if rep.errorDist.isEmpty then none else some rep.errorDist) := by
  simp only [print]
  by_cases h : 0 < (rep.lats.insertionSort (· ≤ ·)).length
  · rw [if_pos h]
    obtain ⟨c2, m2, heq, _⟩ :=
      printHistogram_spec (rep.lats.insertionSort (· ≤ ·)) h (List.sorted_insertionSort _ _)
    rw [heq]
    rfl
  · rw [if_neg h]
    rfl

/-! ### Claim theorems -/

/-- C1: the claim asserts that for every run the report accounts for exactly
N outcomes.  The code is wrong: runWorker signals wg.Done() before sending
its record on the result channel, so the non-blocking drain that starts when
wg.Wait() returns can run before the final send and miss records.  With
N = 1, C = 1 the schedule that runs the drain between Done and the send (one
worker action before the drain, a valid schedule) yields a report accounting
for 0 outcomes; the schedule with the send before the drain accounts for 1,
as the claim intends. -/
theorem c1_outcome_accounting_race :
    validSchedule [(⟨some "connection refused", 0, 5000000, 0⟩ : result)] 1 ∧
    (runC1 [(⟨some "connection refused", 0, 5000000, 0⟩ : result)] 1 1000000000).map accounted =
      some 0 ∧
    (runC1 [(⟨some "connection refused", 0, 5000000, 0⟩ : result)] 2 1000000000).map accounted =
      some 1 := by
  refine ⟨by decide, by decide, by decide⟩

/-- C2: for Qps ≤ 0 the enqueue loop never waits and enqueues all N jobs,
as the claim says.  But for Qps > 1,000,000 the integer division
1,000,000 / Qps truncates to zero, time.Tick(0) returns the nil channel,
and the enqueue loop blocks forever receiving from it (modelled as none):
the limiter is not treated as disabled and the run never completes,
contradicting the claim. -/
theorem c2_zero_interval_tick_blocks :
    runWorkersEnqueue (-1) 3 = some 3 ∧
    runWorkersEnqueue 0 3 = some 3 ∧
    runWorkersEnqueue 1000000 3 = some 3 ∧
    runWorkersEnqueue 1000001 1 = none ∧
    runWorkersEnqueue 2000000 3 = none := by
  refine ⟨by decide, by decide, by decide, by decide, by decide⟩

/-- C3 counterexample: the claim says that with no override the clone body
reader is built from the body of the template.  At a template whose body
reader holds "Body" and an empty override, the clone body is the empty
string, not the body of the template. -/
theorem c3_clone_body_counterexample :
    ¬ (readBody
        (cloneRequest ⟨[["text/html"]], [[("Content-Type", 0)]], ["Body"]⟩
          ⟨"GET", 0, "example.com", 4, 0, 0⟩ "").1
        (cloneRequest ⟨[["text/html"]], [[("Content-Type", 0)]], ["Body"]⟩
          ⟨"GET", 0, "example.com", 4, 0, 0⟩ "").2.Body =
      readBody ⟨[["text/html"]], [[("Content-Type", 0)]], ["Body"]⟩
        (⟨"GET", 0, "example.com", 4, 0, 0⟩ : Request).Body) := by
  decide

/-- C3 amended: cloneRequest always builds the clone body reader freshly
from the supplied body string (the empty string when no override is given);
the body of the template itself is never consulted.  The reader is a fresh
allocation and the clone has no side effect on the headers or body of the
template. -/
theorem c3_clone_body_from_supplied_string (h : Heap) (r : Request) (body : String)
    (hv : validRequest h r) :
    readBody (cloneRequest h r body).1 (cloneRequest h r body).2.Body = body ∧
    h.readers.length ≤ (cloneRequest h r body).2.Body ∧
    readHeader (cloneRequest h r body).1 r.Header = readHeader h r.Header ∧
    readBody (cloneRequest h r body).1 r.Body = readBody h r.Body := by
  obtain ⟨hvh, hvv, hvb⟩ := hv
  obtain ⟨_, _, hreaders, _, hbody, _⟩ := cloneRequest_facts h r body
  refine ⟨?_, ?_, readHeader_clone_preserved h r body r.Header hvh hvv,
    readBody_clone_preserved h r body r.Body hvb⟩
  · rw [readBody, hreaders, hbody, getD_append_self]
  · rw [hbody]

theorem c3_clone_body_witness :
    validRequest ⟨[["text/html"]], [[("Content-Type", 0)]], ["Body"]⟩
      ⟨"GET", 0, "example.com", 4, 0, 0⟩ ∧
    readBody
      (cloneRequest ⟨[["text/html"]], [[("Content-Type", 0)]], ["Body"]⟩
        ⟨"GET", 0, "example.com", 4, 0, 0⟩ "override").1
      (cloneRequest ⟨[["text/html"]], [[("Content-Type", 0)]], ["Body"]⟩
        ⟨"GET", 0, "example.com", 4, 0, 0⟩ "override").2.Body = "override" :=
  ⟨by decide,
    (c3_clone_body_from_supplied_string ⟨[["text/html"]], [[("Content-Type", 0)]], ["Body"]⟩
      ⟨"GET", 0, "example.com", 4, 0, 0⟩ "override" (by decide)).1⟩

/-- C4: when the transport send succeeds but, with ReadAll set, draining the
body fails, the outcome record carries the body-read error while the status
code, elapsed duration and content length keep the values observed from the
completed exchange; the worker still emits its record (the step is total).
On a transport send failure the status code and content length are the zero
values. -/
theorem c4_body_read_error_outcome (resp : Response) (e : String) (elapsed : Duration)
    (hread : resp.bodyReadErr = some e) :
    (runWorkerStep true (Except.ok resp) elapsed).err = some e ∧
    (runWorkerStep true (Except.ok resp) elapsed).statusCode = resp.StatusCode ∧
    (runWorkerStep true (Except.ok resp) elapsed).duration = elapsed ∧
    (runWorkerStep true (Except.ok resp) elapsed).contentLength = resp.ContentLength ∧
    ∀ (ReadAll : Bool) (e2 : String) (elapsed2 : Duration),
      runWorkerStep ReadAll (Except.error e2) elapsed2 =
        { err := some e2, statusCode := 0, duration := elapsed2, contentLength := 0 } := by
  refine ⟨?_, rfl, rfl, rfl, fun _ _ _ => rfl⟩
  simp [runWorkerStep, hread]

theorem c4_body_read_error_outcome_witness :
    (⟨200, 12, some "unexpected EOF"⟩ : Response).bodyReadErr = some "unexpected EOF" ∧
    (runWorkerStep true (Except.ok ⟨200, 12, some "unexpected EOF"⟩) 7).err =
      some "unexpected EOF" :=
  ⟨rfl, (c4_body_read_error_outcome ⟨200, 12, some "unexpected EOF"⟩ "unexpected EOF" 7 rfl).1⟩

/-- C5: on an ascending-sorted latency list the printLatencies loop is
exactly the walk the specification words describe (one pass, rank
i*100/len, monotonically advancing target index over the fixed percentile
set), and a percentile the walk never fills is omitted from the latency
distribution rather than reported as zero. -/
theorem c5_percentile_walk (lats : List ℚ) (hs : lats.Sorted (· ≤ ·)) :
    latLoop lats (List.replicate pctls.length 0) 0 0 = specPercentileWalk lats ∧
    ∀ j, j < pctls.length → (specPercentileWalk lats).2 ≤ j →
      (printLatencies lats).lookup (pctls.getD j 0) = none := by
  refine ⟨latLoop_spec lats, ?_⟩
  intro j hj hfj
  apply printLatencies_lookup_none lats j hj
  rw [latLoop_spec lats]
  have hinv := specFold_inv lats (List.range lats.length) (List.replicate pctls.length 0) 0
    (fun k _ => getD_replicate_zero _ _ _)
  exact hinv.2 j hfj

theorem c5_percentile_walk_witness :
    List.Sorted (· ≤ ·) [(5 : ℚ)] ∧
    (printLatencies [(5 : ℚ)]).lookup 10 = none :=
  ⟨by decide, (c5_percentile_walk [(5 : ℚ)] (by decide)).2 0 (by decide) (by decide)⟩

/-- C6: for a non-empty ascending-sorted latency list the histogram rows
exist (the loop terminates), there are 11 of them, their counts sum to the
success count, every normalized bar length is at most 40 and some bucket
reaches exactly 40; and whenever the maximum bucket count is zero every bar
length is zero. -/
theorem c6_histogram_normalization (lats : List ℚ) (hne : lats ≠ [])
    (hs : lats.Sorted (· ≤ ·)) :
    (∃ rts, printHistogram lats (lats.getD 0 0) (lats.getD (lats.length - 1) 0) = some rts ∧
      rts.length = 11 ∧
      (rts.map ResponseTime.Count).sum = lats.length ∧
      (∀ rt ∈ rts, rt.BarLen ≤ 40) ∧
      ∃ rt ∈ rts, rt.BarLen = 40) ∧
    ∀ (buckets : List ℚ) (counts : List Nat), ∀ rt ∈ mkResponseTimes buckets counts 0,
      rt.BarLen = 0 := by
  have hlen : 0 < lats.length := List.length_pos.mpr hne
  obtain ⟨counts, mx, heq, hclen, hcsum, hbound, hatt, hmx⟩ := printHistogram_spec lats hlen hs
  refine ⟨⟨mkResponseTimes (histBuckets (lats.getD 0 0) (lats.getD (lats.length - 1) 0))
    counts mx, heq, ?_, ?_, ?_, ?_⟩, fun b c => mkResponseTimes_zero_bars b c⟩
  · rw [mkResponseTimes_length, histBuckets_length]
  · rw [mkResponseTimes_counts _ _ _ (by rw [hclen, histBuckets_length]), hcsum]
  · exact mkResponseTimes_barLen_le _ _ _ hbound
  · exact mkResponseTimes_barLen_attained _ _ _ hmx hatt (by rw [hclen, histBuckets_length])

theorem c6_histogram_normalization_witness :
    ([(1 : ℚ), 2] ≠ [] ∧ List.Sorted (· ≤ ·) [(1 : ℚ), 2]) ∧
    (∃ rts, printHistogram [(1 : ℚ), 2] ([(1 : ℚ), 2].getD 0 0)
        ([(1 : ℚ), 2].getD ([(1 : ℚ), 2].length - 1) 0) = some rts ∧
      rts.length = 11 ∧
      (rts.map ResponseTime.Count).sum = [(1 : ℚ), 2].length ∧
      (∀ rt ∈ rts, rt.BarLen ≤ 40) ∧
      ∃ rt ∈ rts, rt.BarLen = 40) :=
  ⟨⟨by decide, by decide⟩,
    (c6_histogram_normalization [(1 : ℚ), 2] (by decide) (by decide)).1⟩

/-- C7: cloning is non-interfering.  After cloning the same valid template
twice, applying any header mutation (binding a key to a fresh slice, or
writing through the backing array of an existing value) through the header
pointer of the first clone changes neither the headers read through the
second clone nor the headers read through the template. -/
theorem c7_clone_header_noninterference (h : Heap) (r : Request) (b1 b2 : String)
    (hv : validRequest h r) (m : HeaderMutation) :
    readHeader
        (applyMutation (cloneRequest (cloneRequest h r b1).1 r b2).1
          (cloneRequest h r b1).2.Header m)
        (cloneRequest (cloneRequest h r b1).1 r b2).2.Header =
      readHeader (cloneRequest (cloneRequest h r b1).1 r b2).1
        (cloneRequest (cloneRequest h r b1).1 r b2).2.Header ∧
    readHeader
        (applyMutation (cloneRequest (cloneRequest h r b1).1 r b2).1
          (cloneRequest h r b1).2.Header m)
        r.Header =
      readHeader (cloneRequest (cloneRequest h r b1).1 r b2).1 r.Header := by
  obtain ⟨hvh, hvv, hvb⟩ := hv
  obtain ⟨⟨t1, ht1⟩, hmaps1, hreaders1, hhdr1, hbody1, _, _, _, _, hrange1⟩ :=
    cloneRequest_facts h r b1
  obtain ⟨⟨t2, ht2⟩, hmaps2, hreaders2, hhdr2, hbody2, _, _, _, _, hrange2⟩ :=
    cloneRequest_facts (cloneRequest h r b1).1 r b2
  have hm1len : (cloneRequest h r b1).1.headerMaps.length = h.headerMaps.length + 1 := by
    rw [hmaps1, List.length_append, List.length_singleton]
  have hs1len : h.slices.length ≤ (cloneRequest h r b1).1.slices.length := by
    rw [ht1, List.length_append]
    omega
  have hs2len : (cloneRequest h r b1).1.slices.length ≤
      (cloneRequest (cloneRequest h r b1).1 r b2).1.slices.length := by
    rw [ht2, List.length_append]
    omega
  have hmapP : (cloneRequest (cloneRequest h r b1).1 r b2).1.headerMaps.getD
      (cloneRequest h r b1).2.Header [] =
      (copyEntries h (h.headerMaps.getD r.Header [])).2 := by
    rw [hmaps2, hhdr1, getD_append_left _ _ _ _ (by omega), hmaps1, getD_append_self]
  have hrlt : r.Header < (cloneRequest h r b1).1.headerMaps.length := by
    rw [hm1len]
    exact Nat.lt_succ_of_lt hvh
  constructor
  · apply readHeader_applyMutation_ne
    · rw [hhdr1, hhdr2, hm1len]
      exact Nat.succ_ne_self h.headerMaps.length
    · intro kv hkv
      rw [hmaps2, hhdr2, getD_append_self] at hkv
      exact (hrange2 kv hkv).2
    · intro kv hkv kv2 hkv2
      rw [hmaps2, hhdr2, getD_append_self] at hkv
      rw [hmapP] at hkv2
      have h1 := (hrange2 kv hkv).1
      have h2 := (hrange1 kv2 hkv2).2
      intro hEq
      rw [hEq] at h1
      exact absurd h1 (Nat.not_le_of_lt h2)
  · apply readHeader_applyMutation_ne
    · rw [hhdr1]
      exact Nat.ne_of_lt hvh
    · intro kv hkv
      rw [hmaps2, getD_append_left _ _ _ _ hrlt, hmaps1,
        getD_append_left _ _ _ _ hvh] at hkv
      exact lt_of_lt_of_le (hvv kv hkv) (le_trans hs1len hs2len)
    · intro kv hkv kv2 hkv2
      rw [hmaps2, getD_append_left _ _ _ _ hrlt, hmaps1,
        getD_append_left _ _ _ _ hvh] at hkv
      rw [hmapP] at hkv2
      have h1 := hvv kv hkv
      have h2 := (hrange1 kv2 hkv2).1
      intro hEq
      rw [hEq] at h1
      exact absurd h2 (Nat.not_le_of_lt h1)

theorem c7_clone_header_noninterference_witness :
    validRequest ⟨[["text/html"]], [[("Content-Type", 0)]], ["Body"]⟩
      ⟨"GET", 0, "example.com", 4, 0, 0⟩ ∧
    readHeader
        (applyMutation
          (cloneRequest
            (cloneRequest ⟨[["text/html"]], [[("Content-Type", 0)]], ["Body"]⟩
              ⟨"GET", 0, "example.com", 4, 0, 0⟩ "x").1
            ⟨"GET", 0, "example.com", 4, 0, 0⟩ "y").1
          (cloneRequest ⟨[["text/html"]], [[("Content-Type", 0)]], ["Body"]⟩
            ⟨"GET", 0, "example.com", 4, 0, 0⟩ "x").2.Header
          (HeaderMutation.setKey "X-Custom" ["v"]))
        (⟨"GET", 0, "example.com", 4, 0, 0⟩ : Request).Header =
      readHeader
        (cloneRequest
          (cloneRequest ⟨[["text/html"]], [[("Content-Type", 0)]], ["Body"]⟩
            ⟨"GET", 0, "example.com", 4, 0, 0⟩ "x").1
          ⟨"GET", 0, "example.com", 4, 0, 0⟩ "y").1
        (⟨"GET", 0, "example.com", 4, 0, 0⟩ : Request).Header :=
  ⟨by decide,
    (c7_clone_header_noninterference ⟨[["text/html"]], [[("Content-Type", 0)]], ["Body"]⟩
      ⟨"GET", 0, "example.com", 4, 0, 0⟩ "x" "y" (by decide)
      (HeaderMutation.setKey "X-Custom" ["v"])).2⟩

/-- C8: the Run Report is independent of the arrival order of the outcome
records: for every permutation of the record list, finalize returns an
identical report (the latencies are sorted before any order-dependent
statistic, and the two distributions are order-independent counter maps). -/
theorem c8_report_order_independent (rs1 rs2 : List result) (total : Duration)
    (hperm : rs1.Perm rs2) :
    finalize rs1 total = finalize rs2 total := by
  have hl : (successSeconds rs1).Perm (successSeconds rs2) := hperm.filterMap _
  have hlen : (successSeconds rs1).length = (successSeconds rs2).length := hl.length_eq
  have hsum : (successSeconds rs1).sum = (successSeconds rs2).sum := hl.sum_eq
  have hsize : (rs1.map sizeContribution).sum = (rs2.map sizeContribution).sum :=
    (hperm.map _).sum_eq
  have hscd : (successCodes rs1).foldl mapInc ([] : List (Int × Nat)) =
      (successCodes rs2).foldl mapInc [] :=
    (hperm.filterMap _).foldl_eq' (fun x _ y _ z => mapInc_comm z x y) []
  have hed : (errMessages rs1).foldl mapInc ([] : List (String × Nat)) =
      (errMessages rs2).foldl mapInc [] :=
    (hperm.filterMap _).foldl_eq' (fun x _ y _ z => mapInc_comm z x y) []
  simp only [finalize, collect_spec]
  rw [hsum, hsize, hscd, hed, hlen]
  exact print_lats_perm _ _ _ hl _ _ _ _ _ _

theorem c8_report_order_independent_witness :
    ([(⟨none, 200, 1000000000, 5⟩ : result), ⟨some "boom", 0, 1, 0⟩] : List result).Perm
        [⟨some "boom", 0, 1, 0⟩, ⟨none, 200, 1000000000, 5⟩] ∧
    finalize [(⟨none, 200, 1000000000, 5⟩ : result), ⟨some "boom", 0, 1, 0⟩] 2000000000 =
      finalize [⟨some "boom", 0, 1, 0⟩, ⟨none, 200, 1000000000, 5⟩] 2000000000 :=
  ⟨by decide,
    c8_report_order_independent
      [⟨none, 200, 1000000000, 5⟩, ⟨some "boom", 0, 1, 0⟩]
      [⟨some "boom", 0, 1, 0⟩, ⟨none, 200, 1000000000, 5⟩] 2000000000 (by decide)⟩

/-- C9: when every record carries an error the report has an all-zero
summary (TotalSecond and RequestsPerSec included), nil StatusCodeDist,
ResponseTimes and LatencyDist, and a populated ErrorDist; and when no record
carries an error, ErrorDist is nil. -/
theorem c9_all_error_report (rs : List result) (total : Duration) (hne : rs ≠ [])
    (herr : ∀ res ∈ rs, res.err.isSome) :
    (finalize rs total).map (fun rep =>
      (rep.Summary, rep.StatusCodeDist, rep.ResponseTimes, rep.LatencyDist,
        rep.ErrorDist.isSome)) =
      some (zeroSummary, none, none, none, true) ∧
    ∀ (rs2 : List result) (total2 : Duration), (∀ res ∈ rs2, res.err = none) →
      (finalize rs2 total2).map ReportResult.ErrorDist = some none := by
  constructor
  · have hss := successSeconds_all_errors rs herr
    have hfoldne := foldl_mapInc_ne_nil (errMessages rs) []
      (Or.inr (errMessages_cons_ne_nil rs hne herr))
    simp only [finalize, collect_spec, hss]
    rw [print_empty]
    cases hEl : (errMessages rs).foldl mapInc ([] : List (String × Nat)) with
    | nil => exact absurd hEl hfoldne
    | cons x xs => simp [hEl]
  · intro rs2 total2 hok
    have hed : errMessages rs2 = [] := errMessages_no_errors rs2 hok
    simp only [finalize, collect_spec, hed, List.foldl_nil]
    rw [print_errorDist]
    rfl

theorem c9_all_error_report_witness :
    (([(⟨some "boom", 0, 1, 0⟩ : result)] : List result) ≠ [] ∧
      ∀ res ∈ ([(⟨some "boom", 0, 1, 0⟩ : result)] : List result), res.err.isSome) ∧
    (finalize [(⟨some "boom", 0, 1, 0⟩ : result)] 1000000000).map (fun rep =>
      (rep.Summary, rep.StatusCodeDist, rep.ResponseTimes, rep.LatencyDist,
        rep.ErrorDist.isSome)) =
      some (zeroSummary, none, none, none, true) :=
  ⟨⟨by decide, by decide⟩,
    (c9_all_error_report [⟨some "boom", 0, 1, 0⟩] 1000000000 (by decide) (by decide)).1⟩

/-- C10: the request produced by cloneRequest agrees with the template on
every modelled field other than Header and Body; in particular the URL
pointer is shared, while the Header map pointer and the Body reader pointer
are fresh and so differ from those of the template. -/
theorem c10_clone_shares_other_fields (h : Heap) (r : Request) (body : String)
    (hv : validRequest h r) :
    (cloneRequest h r body).2.Method = r.Method ∧
    (cloneRequest h r body).2.URL = r.URL ∧
    (cloneRequest h r body).2.Host = r.Host ∧
    (cloneRequest h r body).2.ContentLength = r.ContentLength ∧
    (cloneRequest h r body).2.Header ≠ r.Header ∧
    (cloneRequest h r body).2.Body ≠ r.Body := by
  obtain ⟨hvh, hvv, hvb⟩ := hv
  obtain ⟨_, _, _, hhdr, hbody, hm, hu, hh, hc, _⟩ := cloneRequest_facts h r body
  exact ⟨hm, hu, hh, hc, by rw [hhdr]; exact (Nat.ne_of_lt hvh).symm,
    by rw [hbody]; exact (Nat.ne_of_lt hvb).symm⟩

theorem c10_clone_shares_other_fields_witness :
    validRequest ⟨[["text/html"]], [[("Content-Type", 0)]], ["Body"]⟩
      ⟨"GET", 0, "example.com", 4, 0, 0⟩ ∧
    (cloneRequest ⟨[["text/html"]], [[("Content-Type", 0)]], ["Body"]⟩
        ⟨"GET", 0, "example.com", 4, 0, 0⟩ "b").2.URL =
      (⟨"GET", 0, "example.com", 4, 0, 0⟩ : Request).URL :=
  ⟨by decide,
    (c10_clone_shares_other_fields ⟨[["text/html"]], [[("Content-Type", 0)]], ["Body"]⟩
      ⟨"GET", 0, "example.com", 4, 0, 0⟩ "b" (by decide)).2.1⟩

end Boomer
